import Mathlib

/-
  Verification development for the PDF heading-detection pipeline in
  src/目录/contents.py.

  The embedding is shallow: Python `str` values are modelled as `List Char`
  (a Python string is a sequence of Unicode code points, and `len`, slicing,
  `strip`, `endswith` all operate on code points), Python `float` values as
  `ℚ` (the source only adds, subtracts, divides by two and compares, so exact
  rationals model every computation path), `None`-able floats as `Option ℚ`,
  and the `LineInfo` dataclass as a structure.  The in-place mutation of the
  Python code is modelled by returning updated records.
-/

/-- Embedding of the `LineInfo` dataclass (contents.py lines 14-26). -/
structure LineInfo where
  page : Nat
  line_index : Nat
  text : List Char
  font : List Char
  size : ℚ
  x0 : ℚ
  y0 : ℚ
  x1 : ℚ
  y1 : ℚ
  spacing_before : Option ℚ
  is_heading : Bool
deriving DecidableEq

instance : Inhabited LineInfo :=
  ⟨⟨0, 0, [], [], 0, 0, 0, 0, 0, none, false⟩⟩

/-- Ordering used by `sorted(page_lines, key=lambda l: l.y0)`. -/
def y0Le (a b : LineInfo) : Prop := a.y0 ≤ b.y0

instance : DecidableRel y0Le :=
  fun a b => inferInstanceAs (Decidable (a.y0 ≤ b.y0))

/-- Python `sorted(... , key=lambda l: l.y0)`: a stable sort by `y0`;
`List.insertionSort` is stable, like Python's sort. -/
def sortByY0 (ls : List LineInfo) : List LineInfo :=
  ls.insertionSort y0Le

/-- One step of the spacing loop (contents.py lines 91-98): the first record
of a page gets `spacing_before = None`; a later record gets the gap to the
previous record's bottom when it is nonnegative, `None` otherwise. -/
def spacingStep (prev : Option LineInfo) (l : LineInfo) : LineInfo :=
  match prev with
  | none => { l with spacing_before := none }
  | some p =>
    let spacing := l.y0 - p.y1
    { l with spacing_before := if 0 ≤ spacing then some spacing else none }

/-- The walk over one page's `y0`-sorted records, carrying `prev_line`. -/
def spacingWalk : Option LineInfo → List LineInfo → List LineInfo
  | _, [] => []
  | prev, l :: rest =>
    let l' := spacingStep prev l
    l' :: spacingWalk (some l') rest

/-- Pages in order of first appearance: the iteration order of the
insertion-ordered `by_page` dict built at contents.py lines 81-83. -/
def pagesInOrder (lines : List LineInfo) : List Nat :=
  lines.foldl (fun acc l => if l.page ∈ acc then acc else acc ++ [l.page]) []

/-- Embedding of `compute_line_spacing` (contents.py lines 78-102): group by
page in first-appearance order, sort each page by `y0`, walk it assigning
`spacing_before`, and concatenate the pages. -/
def compute_line_spacing (lines : List LineInfo) : List LineInfo :=
  (pagesInOrder lines).flatMap
    (fun p => spacingWalk none (sortByY0 (lines.filter (fun l => l.page = p))))

/-- Sizes sampled for the body-size estimate (contents.py lines 117-120):
the sizes of the records whose text is longer than 20 characters. -/
def bodySizes (lines : List LineInfo) : List ℚ :=
  (lines.filter (fun l => 20 < l.text.length)).map (fun l => l.size)

/-- Python `sorted` on a list of sizes. -/
def sortedQ (xs : List ℚ) : List ℚ :=
  xs.insertionSort (· ≤ ·)

/-- The median computation of contents.py lines 124-129: `mid = len // 2`,
middle element for odd length, average of the two central elements for even
length. -/
def bodySizeMedian (sizes : List ℚ) : ℚ :=
  let s := sortedQ sizes
  let mid := s.length / 2
  if s.length % 2 = 1 then s.getD mid 0
  else (s.getD (mid - 1) 0 + s.getD mid 0) / 2

/-- Python `str.strip()` on a list of code points. -/
def trimText (s : List Char) : List Char :=
  ((s.dropWhile Char.isWhitespace).reverse.dropWhile Char.isWhitespace).reverse

/-- The sentence-terminal punctuation tuple of contents.py line 149:
`("。", ".", "!", "！", "?", "？")`, all single characters. -/
def terminalPuncts : List Char := ['。', '.', '!', '！', '?', '？']

/-- Python `text.endswith(tuple)` where every tuple element is a single
character: the last character is in the set (empty text ends with none). -/
def endsInTerminalPunct (s : List Char) : Bool :=
  match s.getLast? with
  | some c => terminalPuncts.contains c
  | none => false

/-- The per-record body of the classification loop (contents.py lines
131-151): empty text forces `is_heading = False`; otherwise `is_heading` is
the conjunction of the size, spacing, length and punctuation conditions. -/
def classifyLine (median sizeDeltaThr spacingThr : ℚ) (maxTitleLen : Nat)
    (l : LineInfo) : LineInfo :=
  if l.text = [] then
    { l with is_heading := false }
  else
    let cond_size := decide (median + sizeDeltaThr ≤ l.size)
    let cond_spacing :=
      match l.spacing_before with
      | none => true
      | some sp => decide (spacingThr ≤ sp)
    let cond_len := decide (l.text.length ≤ maxTitleLen)
    let cond_punct := ! endsInTerminalPunct (trimText l.text)
    { l with is_heading := cond_size && cond_spacing && cond_len && cond_punct }

/-- Embedding of `mark_heading_candidates` (contents.py lines 108-153).
Note the early `return lines` when `body_sizes` is empty (line 121-122). -/
def mark_heading_candidates (lines : List LineInfo)
    (size_delta_threshold spacing_threshold : ℚ) (max_title_len : Nat) :
    List LineInfo :=
  if bodySizes lines = [] then lines
  else
    lines.map
      (classifyLine (bodySizeMedian (bodySizes lines)) size_delta_threshold
        spacing_threshold max_title_len)

/-- Python `html.escape(s, quote=True)`: since `&` is replaced first and the
later replacements never touch the `&` they introduce, the sequential
`str.replace` chain equals this character-wise expansion. -/
def escapeChar (c : Char) : List Char :=
  if c = '&' then "&amp;".toList
  else if c = '<' then "&lt;".toList
  else if c = '>' then "&gt;".toList
  else if c = '"' then "&quot;".toList
  else if c = '\'' then "&#x27;".toList
  else [c]

/-- Python `html.escape` over a whole string. -/
def htmlEscape (s : List Char) : List Char :=
  s.flatMap escapeChar

/-- Python `f"{q:.2f}"` on a rational: sign, integer part, and exactly two
fractional digits (round-half-up on the magnitude). -/
def format2 (q : ℚ) : List Char :=
  let sign := if q < 0 then "-".toList else []
  let n : ℤ := ⌊|q| * 100 + 1 / 2⌋
  let ip : ℕ := (n / 100).toNat
  let fp : ℕ := (n % 100).toNat
  let fracDigits :=
    if fp < 10 then "0".toList ++ (toString fp).toList else (toString fp).toList
  sign ++ (toString ip).toList ++ ".".toList ++ fracDigits

/-- Ordering used by `sorted(lines, key=lambda x: (x.page, x.y0))`: Python
tuple order, i.e. lexicographic on `(page, y0)`. -/
def pageY0Le (a b : LineInfo) : Prop :=
  a.page < b.page ∨ (a.page = b.page ∧ a.y0 ≤ b.y0)

instance : DecidableRel pageY0Le :=
  fun a b =>
    inferInstanceAs (Decidable (a.page < b.page ∨ (a.page = b.page ∧ a.y0 ≤ b.y0)))

/-- The serializer's sort (contents.py line 162). -/
def sortLines (lines : List LineInfo) : List LineInfo :=
  lines.insertionSort pageY0Le

/-- One emitted element (contents.py lines 163-174): `h2` for a heading,
`p` otherwise, with the `data-` attributes in source order and the
`data-spacing-before` attribute omitted when `spacing_before` is `None`. -/
def renderLine (l : LineInfo) : List Char :=
  let safe_text := htmlEscape l.text
  let attrs : List (List Char) :=
    ["data-page=\"".toList ++ (toString l.page).toList ++ "\"".toList,
     "data-font=\"".toList ++ htmlEscape l.font ++ "\"".toList,
     "data-size=\"".toList ++ format2 l.size ++ "\"".toList]
  let attrs := attrs ++
    (match l.spacing_before with
     | some sp => ["data-spacing-before=\"".toList ++ format2 sp ++ "\"".toList]
     | none => [])
  let attrs := attrs ++
    ["data-is-heading=\"".toList ++
      (if l.is_heading then "true".toList else "false".toList) ++ "\"".toList]
  let tag := if l.is_heading then "h2".toList else "p".toList
  "  <".toList ++ tag ++ " ".toList ++ List.intercalate " ".toList attrs ++
    ">".toList ++ safe_text ++ "</".toList ++ tag ++ ">".toList

/-- Embedding of `build_html_from_lines` (contents.py lines 159-176). -/
def build_html_from_lines (lines : List LineInfo) : List Char :=
  let parts :=
    ["<div class=\"pdf-lines\">".toList] ++ (sortLines lines).map renderLine ++
      ["</div>".toList]
  List.intercalate "\n".toList parts

/-- One text fragment as supplied by the parsing engine (a PyMuPDF span). -/
structure RawSpan where
  text : List Char
  font : List Char
  size : ℚ
deriving DecidableEq

/-- One raw line: its spans and its bounding box. -/
structure RawLine where
  spans : List RawSpan
  x0 : ℚ
  y0 : ℚ
  x1 : ℚ
  y1 : ℚ
deriving DecidableEq

/-- The body of the per-line loop of `parse_pdf_lines` (contents.py lines
44-71): skip a line with no spans, join the span texts, strip, skip if
empty, otherwise build a record from the first span and the line's bbox. -/
def mergeLine (pageNo counter : Nat) (rl : RawLine) : Option LineInfo :=
  match rl.spans with
  | [] => none
  | main_span :: _ =>
    let text := trimText ((rl.spans.map (fun s => s.text)).flatten)
    if text = [] then none
    else
      some
        { page := pageNo, line_index := counter, text := text,
          font := main_span.font, size := main_span.size,
          x0 := rl.x0, y0 := rl.y0, x1 := rl.x1, y1 := rl.y1,
          spacing_before := none, is_heading := false }

/-- The per-page loop with its `line_counter`, which starts at 0 and is
incremented only when a record is appended (contents.py lines 40-71). -/
def processPageLines (pageNo : Nat) : Nat → List RawLine → List LineInfo
  | _, [] => []
  | counter, rl :: rest =>
    match mergeLine pageNo counter rl with
    | none => processPageLines pageNo counter rest
    | some li => li :: processPageLines pageNo (counter + 1) rest

/-- The span-merging phase of `parse_pdf_lines` (contents.py lines 37-71):
pages are enumerated from 0 and recorded as `page_index + 1`; within a page
the blocks' lines are visited in order with one shared counter. -/
def span_merge (pages : List (List (List RawLine))) : List LineInfo :=
  ((pages.enum).map (fun pr => processPageLines (pr.1 + 1) 0 pr.2.flatten)).flatten

/-- Embedding of `parse_pdf_lines` (contents.py lines 32-75): span merging
followed by spacing computation (line 74). -/
def parse_pdf_lines (pages : List (List (List RawLine))) : List LineInfo :=
  compute_line_spacing (span_merge pages)

/-- Merged text of a raw line, as the spec words it: fragment texts
concatenated in order with no separator, then stripped. -/
def mergedText (rl : RawLine) : List Char :=
  trimText ((rl.spans.map (fun s => s.text)).flatten)

/-- First fragment of a raw line (the representative span). -/
def firstSpan (rl : RawLine) : RawSpan :=
  rl.spans.headD ⟨[], [], 0⟩

/-- Modelled from the spec's words for the Span Merger contract: the record
emitted for a kept raw line, given its page and its zero-based index among
the kept lines of that page. -/
def specMergeRecord (p : Nat) (pr : Nat × RawLine) : LineInfo :=
  { page := p, line_index := pr.1, text := mergedText pr.2,
    font := (firstSpan pr.2).font, size := (firstSpan pr.2).size,
    x0 := pr.2.x0, y0 := pr.2.y0, x1 := pr.2.x1, y1 := pr.2.y1,
    spacing_before := none, is_heading := false }

/-- Modelled from the spec's words: one page's records are the raw lines
with non-empty merged text, enumerated from 0 in order. -/
def specMergePage (p : Nat) (rls : List RawLine) : List LineInfo :=
  ((rls.filter (fun rl => mergedText rl ≠ [])).enum).map (specMergeRecord p)

/-- Modelled from the spec's words: the whole-document Span Merger, pages
numbered from 1. -/
def specSpanMerge (pages : List (List (List RawLine))) : List LineInfo :=
  ((pages.enum).map (fun pr => specMergePage (pr.1 + 1) pr.2.flatten)).flatten

/-- Records of a page in the order the Spacing Calculator visits them. -/
def pageSorted (lines : List LineInfo) (p : Nat) : List LineInfo :=
  sortByY0 (lines.filter (fun l => l.page = p))

/-- The page-`p` records of the Spacing Calculator's output. -/
def pageOut (lines : List LineInfo) (p : Nat) : List LineInfo :=
  (compute_line_spacing lines).filter (fun l => l.page = p)

/-- Concrete record whose text is short (7 characters), so it never enters
the body-size sample; its size 5 clears `0 + size_delta_threshold` for the
default threshold 2, its spacing is unknown, its length is below 80, and it
ends in no terminal punctuation. -/
def shortLine : LineInfo :=
  ⟨1, 0, "Heading".toList, "F".toList, 5, 0, 0, 10, 1, none, false⟩

/-- Concrete two-line page: a short large line and a long body line. -/
def demoLines : List LineInfo :=
  [⟨1, 0, "Chapter One".toList, "F0".toList, 18, 0, 0, 100, 10, none, false⟩,
   ⟨1, 1, "This is a long body paragraph line.".toList, "F1".toList, 10, 0, 20,
     100, 30, some 10, false⟩]

lemma classifyLine_is_heading (median δ σ : ℚ) (m : Nat) (l : LineInfo) :
    (classifyLine median δ σ m l).is_heading = true ↔
      (l.text ≠ [] ∧ median + δ ≤ l.size ∧
       (l.spacing_before = none ∨ ∃ sp, l.spacing_before = some sp ∧ σ ≤ sp) ∧
       l.text.length ≤ m ∧ endsInTerminalPunct (trimText l.text) = false) := by
  unfold classifyLine
  by_cases ht : l.text = []
  · simp [ht]
  · cases hsp : l.spacing_before <;>
      simp [ht, hsp, Bool.and_eq_true, decide_eq_true_eq, Bool.not_eq_true',
        and_assoc]

lemma classifyLine_frame (median δ σ : ℚ) (m : Nat) (l : LineInfo) :
    (classifyLine median δ σ m l).page = l.page ∧
    (classifyLine median δ σ m l).line_index = l.line_index ∧
    (classifyLine median δ σ m l).text = l.text ∧
    (classifyLine median δ σ m l).font = l.font ∧
    (classifyLine median δ σ m l).size = l.size ∧
    (classifyLine median δ σ m l).x0 = l.x0 ∧
    (classifyLine median δ σ m l).y0 = l.y0 ∧
    (classifyLine median δ σ m l).x1 = l.x1 ∧
    (classifyLine median δ σ m l).y1 = l.y1 ∧
    (classifyLine median δ σ m l).spacing_before = l.spacing_before := by
  unfold classifyLine
  split <;> exact ⟨rfl, rfl, rfl, rfl, rfl, rfl, rfl, rfl, rfl, rfl⟩

lemma classifyLine_default (median δ σ : ℚ) (m : Nat) :
    classifyLine median δ σ m default = default := rfl

lemma getD_map_classifyLine (median δ σ : ℚ) (m : Nat)
    (lines : List LineInfo) (i : Nat) :
    (lines.map (classifyLine median δ σ m)).getD i default =
      classifyLine median δ σ m (lines.getD i default) := by
  rw [List.getD_eq_getElem?_getD, List.getD_eq_getElem?_getD,
    List.getElem?_map]
  cases h : lines[i]? <;> simp [classifyLine_default]

lemma bodySizes_map_classify (median δ σ : ℚ) (m : Nat)
    (lines : List LineInfo) :
    bodySizes (lines.map (classifyLine median δ σ m)) = bodySizes lines := by
  induction lines with
  | nil => rfl
  | cons a as ih =>
    unfold bodySizes at ih ⊢
    simp only [List.map_cons, List.filter_cons,
      (classifyLine_frame median δ σ m a).2.2.1]
    by_cases h : 20 < a.text.length <;>
      simp [h, ih, (classifyLine_frame median δ σ m a).2.2.2.2.1]

lemma classifyLine_idem (median δ σ : ℚ) (m : Nat) (l : LineInfo) :
    classifyLine median δ σ m (classifyLine median δ σ m l) =
      classifyLine median δ σ m l := by
  unfold classifyLine
  by_cases ht : l.text = [] <;> simp [ht]

/-- C1: the claim says that on a non-empty collection with every text at
most 20 characters long the classifier estimates body size 0 and still
classifies, so a qualifying line is marked as a heading.  The code instead
returns early (contents.py line 121-122): `shortLine` satisfies every
stated condition against body size 0 with the default thresholds, yet its
`is_heading` stays `false`. -/
theorem heading_classifier_short_lines_cex :
    (shortLine.text ≠ [] ∧ shortLine.text.length ≤ 20 ∧
     (0 : ℚ) + 2 ≤ shortLine.size ∧ shortLine.spacing_before = none ∧
     shortLine.text.length ≤ 80 ∧
     endsInTerminalPunct (trimText shortLine.text) = false) ∧
    ((mark_heading_candidates [shortLine] 2 4 80).getD 0 default).is_heading =
      false := by
  refine ⟨⟨?_, ?_, ?_, ?_, ?_, ?_⟩, ?_⟩
  · decide
  · decide
  · norm_num [shortLine]
  · decide
  · decide
  · decide
  · decide

/-- C1 (amended): for every non-empty collection in which no record's text
length exceeds 20 characters, the body-size sample is empty and
`mark_heading_candidates` returns the collection unchanged — per-line
classification is not run and every record keeps its prior `is_heading`
value (`false` by default). -/
theorem heading_classifier_short_lines_amended (lines : List LineInfo)
    (δ σ : ℚ) (m : Nat) (_hne : lines ≠ [])
    (h : ∀ l ∈ lines, l.text.length ≤ 20) :
    mark_heading_candidates lines δ σ m = lines := by
  have hf : lines.filter (fun l => 20 < l.text.length) = [] :=
    List.filter_eq_nil_iff.mpr
      (by intro a ha; simpa using Nat.not_lt.mpr (h a ha))
  have hb : bodySizes lines = [] := by unfold bodySizes; rw [hf]; rfl
  unfold mark_heading_candidates
  rw [if_pos hb]

/-- C1 (witness): the amended statement applied to `[shortLine]`. -/
theorem heading_classifier_short_lines_amended_wit :
    ([shortLine] ≠ [] ∧ ∀ l ∈ [shortLine], l.text.length ≤ 20) ∧
    mark_heading_candidates [shortLine] 2 4 80 = [shortLine] :=
  ⟨⟨by decide, by decide⟩,
    heading_classifier_short_lines_amended [shortLine] 2 4 80 (by decide)
      (by decide)⟩

/-- C2: when the body-size sample is non-empty, a record of the collection
gets `is_heading = true` exactly when all five conditions hold: non-empty
text, size at least the body median plus `size_delta_threshold`, spacing
unknown or at least `spacing_threshold`, text length at most
`max_title_len`, and trimmed text not ending in a terminal punctuation mark
from the set full stop, exclamation mark, question mark, their full-width
forms `！`/`？`, and the CJK full stop `。`. -/
theorem heading_flag_iff_five_conditions (lines : List LineInfo) (δ σ : ℚ)
    (m : Nat) (h : bodySizes lines ≠ []) (i : Nat) (_hi : i < lines.length) :
    ((mark_heading_candidates lines δ σ m).getD i default).is_heading = true ↔
      ((lines.getD i default).text ≠ [] ∧
       bodySizeMedian (bodySizes lines) + δ ≤ (lines.getD i default).size ∧
       ((lines.getD i default).spacing_before = none ∨
         ∃ sp, (lines.getD i default).spacing_before = some sp ∧ σ ≤ sp) ∧
       (lines.getD i default).text.length ≤ m ∧
       endsInTerminalPunct (trimText (lines.getD i default).text) = false) := by
  unfold mark_heading_candidates
  rw [if_neg h, getD_map_classifyLine, classifyLine_is_heading]

/-- C2 (witness): the characterization applied to the first record of
`demoLines` with the default thresholds. -/
theorem heading_flag_iff_five_conditions_wit :
    (bodySizes demoLines ≠ [] ∧ 0 < demoLines.length) ∧
    (((mark_heading_candidates demoLines 2 4 80).getD 0 default).is_heading =
        true ↔
      ((demoLines.getD 0 default).text ≠ [] ∧
       bodySizeMedian (bodySizes demoLines) + 2 ≤
         (demoLines.getD 0 default).size ∧
       ((demoLines.getD 0 default).spacing_before = none ∨
         ∃ sp, (demoLines.getD 0 default).spacing_before = some sp ∧
           (4 : ℚ) ≤ sp) ∧
       (demoLines.getD 0 default).text.length ≤ 80 ∧
       endsInTerminalPunct (trimText (demoLines.getD 0 default).text) =
         false)) :=
  ⟨⟨by decide, by decide⟩,
    heading_flag_iff_five_conditions demoLines 2 4 80 (by decide) 0
      (by decide)⟩

/-- C7: classification is antitone in `size_delta_threshold`: with the
other thresholds fixed and `δ₁ ≤ δ₂`, a record not marked as a heading
under `δ₁` is also not marked under `δ₂`. -/
theorem heading_monotone_in_size_delta (lines : List LineInfo)
    (δ₁ δ₂ σ : ℚ) (m : Nat) (h : δ₁ ≤ δ₂) (i : Nat) :
    ((mark_heading_candidates lines δ₁ σ m).getD i default).is_heading =
        false →
    ((mark_heading_candidates lines δ₂ σ m).getD i default).is_heading =
        false := by
  unfold mark_heading_candidates
  by_cases hb : bodySizes lines = []
  · rw [if_pos hb, if_pos hb]
    exact id
  · rw [if_neg hb, if_neg hb, getD_map_classifyLine, getD_map_classifyLine]
    intro h1
    by_contra h2
    rw [Bool.not_eq_false, classifyLine_is_heading] at h2
    obtain ⟨ht, hs, hsp, hl, hp⟩ := h2
    have h3 : (classifyLine (bodySizeMedian (bodySizes lines)) δ₁ σ m
        (lines.getD i default)).is_heading = true := by
      rw [classifyLine_is_heading]
      exact ⟨ht, by linarith, hsp, hl, hp⟩
    exact Bool.noConfusion (h3.symm.trans h1)

/-- C7 (witness): monotonicity applied to `demoLines` with thresholds 2 and
3. -/
theorem heading_monotone_in_size_delta_wit :
    (2 : ℚ) ≤ 3 ∧
    ∀ i : Nat,
      ((mark_heading_candidates demoLines 2 4 80).getD i default).is_heading =
          false →
      ((mark_heading_candidates demoLines 3 4 80).getD i default).is_heading =
          false :=
  ⟨by decide,
    fun i => heading_monotone_in_size_delta demoLines 2 3 4 80 (by decide) i⟩

/-- C8: running `mark_heading_candidates` twice with the same thresholds
over the same spacing-annotated collection equals running it once. -/
theorem classifier_idempotent (lines : List LineInfo) (δ σ : ℚ) (m : Nat) :
    mark_heading_candidates (mark_heading_candidates lines δ σ m) δ σ m =
      mark_heading_candidates lines δ σ m := by
  by_cases hb : bodySizes lines = []
  · have h1 : mark_heading_candidates lines δ σ m = lines := by
      unfold mark_heading_candidates; rw [if_pos hb]
    rw [h1, h1]
  · have h1 : mark_heading_candidates lines δ σ m =
        lines.map (classifyLine (bodySizeMedian (bodySizes lines)) δ σ m) := by
      unfold mark_heading_candidates; rw [if_neg hb]
    rw [h1]
    unfold mark_heading_candidates
    rw [bodySizes_map_classify, if_neg hb, List.map_map]
    refine List.map_congr_left ?_
    intro a _
    exact classifyLine_idem _ _ _ _ a

/-- C9: on the empty collection the classifier returns the empty collection
and the serializer emits the container element with no children; both are
total functions, so no failure is raised. -/
theorem empty_collection_behavior (δ σ : ℚ) (m : Nat) :
    mark_heading_candidates [] δ σ m = [] ∧
    build_html_from_lines [] = ("<div class=\"pdf-lines\">\n</div>").toList :=
  ⟨rfl, by decide⟩

/-- C10: the classifier preserves the length of the collection and, at
every position, every field other than `is_heading` — `page`, `line_index`,
`text`, `font`, `size`, `x0`, `y0`, `x1`, `y1` and `spacing_before` — so
records come back in input order with only `is_heading` touched. -/
theorem classifier_frame (lines : List LineInfo) (δ σ : ℚ) (m : Nat)
    (i : Nat) :
    (mark_heading_candidates lines δ σ m).length = lines.length ∧
    ((mark_heading_candidates lines δ σ m).getD i default).page =
      (lines.getD i default).page ∧
    ((mark_heading_candidates lines δ σ m).getD i default).line_index =
      (lines.getD i default).line_index ∧
    ((mark_heading_candidates lines δ σ m).getD i default).text =
      (lines.getD i default).text ∧
    ((mark_heading_candidates lines δ σ m).getD i default).font =
      (lines.getD i default).font ∧
    ((mark_heading_candidates lines δ σ m).getD i default).size =
      (lines.getD i default).size ∧
    ((mark_heading_candidates lines δ σ m).getD i default).x0 =
      (lines.getD i default).x0 ∧
    ((mark_heading_candidates lines δ σ m).getD i default).y0 =
      (lines.getD i default).y0 ∧
    ((mark_heading_candidates lines δ σ m).getD i default).x1 =
      (lines.getD i default).x1 ∧
    ((mark_heading_candidates lines δ σ m).getD i default).y1 =
      (lines.getD i default).y1 ∧
    ((mark_heading_candidates lines δ σ m).getD i default).spacing_before =
      (lines.getD i default).spacing_before := by
  unfold mark_heading_candidates
  by_cases hb : bodySizes lines = []
  · rw [if_pos hb]
    exact ⟨rfl, rfl, rfl, rfl, rfl, rfl, rfl, rfl, rfl, rfl, rfl⟩
  · rw [if_neg hb, getD_map_classifyLine]
    exact ⟨by simp, classifyLine_frame _ _ _ _ _⟩

/-- Collection whose long-text (more than 20 characters) records carry
sizes 10, 12, 14; the short record of size 99 is excluded from sampling. -/
def medianLines3 : List LineInfo :=
  [⟨1, 0, "first long body line of the page".toList, "F".toList, 10, 0, 0, 0,
     0, none, false⟩,
   ⟨1, 1, "Short".toList, "F".toList, 99, 0, 0, 0, 0, none, false⟩,
   ⟨1, 2, "second long body line of the page".toList, "F".toList, 12, 0, 0, 0,
     0, none, false⟩,
   ⟨1, 3, "third long body line of the page".toList, "F".toList, 14, 0, 0, 0,
     0, none, false⟩]

/-- Same collection with one more long-text record of size 16. -/
def medianLines4 : List LineInfo :=
  medianLines3 ++
    [⟨1, 4, "fourth long body line of the page".toList, "F".toList, 16, 0, 0,
       0, 0, none, false⟩]

lemma sortedQ_perm (sizes : List ℚ) : (sortedQ sizes).Perm sizes :=
  List.perm_insertionSort _ sizes

lemma sortedQ_length (sizes : List ℚ) : (sortedQ sizes).length = sizes.length :=
  (sortedQ_perm sizes).length_eq

/-- C4: the body-size sample is the sizes of exactly the records with text
longer than 20 characters; the median is taken of the sorted sample —
middle value for an odd count, average of the two central values for an
even count — and the concrete samples [10, 12, 14] and [10, 12, 14, 16]
give 12 and 13 respectively. -/
theorem body_size_median_spec :
    (∀ sizes : List ℚ, (sortedQ sizes).Perm sizes ∧
      List.Sorted (· ≤ ·) (sortedQ sizes) ∧
      (sortedQ sizes).length = sizes.length) ∧
    (∀ sizes : List ℚ, sizes.length % 2 = 1 →
      bodySizeMedian sizes = (sortedQ sizes).getD (sizes.length / 2) 0) ∧
    (∀ sizes : List ℚ, sizes.length % 2 = 0 →
      bodySizeMedian sizes =
        ((sortedQ sizes).getD (sizes.length / 2 - 1) 0 +
          (sortedQ sizes).getD (sizes.length / 2) 0) / 2) ∧
    bodySizes medianLines3 = [10, 12, 14] ∧
    bodySizeMedian (bodySizes medianLines3) = 12 ∧
    bodySizes medianLines4 = [10, 12, 14, 16] ∧
    bodySizeMedian (bodySizes medianLines4) = 13 := by
  refine ⟨?_, ?_, ?_, by decide, by decide, by decide, ?_⟩
  · intro sizes
    exact ⟨sortedQ_perm sizes,
      by unfold sortedQ; exact List.sorted_insertionSort _ _,
      sortedQ_length sizes⟩
  · intro sizes h
    simp only [bodySizeMedian, sortedQ_length]
    rw [if_pos h]
  · intro sizes h
    simp only [bodySizeMedian, sortedQ_length]
    rw [if_neg (by omega)]
  · show bodySizeMedian (bodySizes medianLines4) = 13
    norm_num [show bodySizes medianLines4 = [10, 12, 14, 16] by decide,
      bodySizeMedian, sortedQ, List.insertionSort, List.orderedInsert]

/-- C4 (witness): the odd-count case applied to the sample [10, 12, 14]. -/
theorem body_size_median_spec_wit :
    ([10, 12, 14] : List ℚ).length % 2 = 1 ∧
    bodySizeMedian [10, 12, 14] =
      (sortedQ [10, 12, 14]).getD (([10, 12, 14] : List ℚ).length / 2) 0 :=
  ⟨by decide, body_size_median_spec.2.1 [10, 12, 14] (by decide)⟩

instance : IsTotal LineInfo pageY0Le :=
  ⟨by
    intro a b
    unfold pageY0Le
    rcases Nat.lt_trichotomy a.page b.page with h | h | h
    · exact Or.inl (Or.inl h)
    · rcases le_total a.y0 b.y0 with hy | hy
      · exact Or.inl (Or.inr ⟨h, hy⟩)
      · exact Or.inr (Or.inr ⟨h.symm, hy⟩)
    · exact Or.inr (Or.inl h)⟩

instance : IsTrans LineInfo pageY0Le :=
  ⟨by
    intro a b c hab hbc
    unfold pageY0Le at *
    rcases hab with h1 | ⟨e1, v1⟩ <;> rcases hbc with h2 | ⟨e2, v2⟩
    · exact Or.inl (by omega)
    · exact Or.inl (by omega)
    · exact Or.inl (by omega)
    · exact Or.inr ⟨by omega, le_trans v1 v2⟩⟩

/-- C6: the serializer emits, for a permutation of the records sorted
lexicographically by `(page, y0)` ascending, exactly one element per
record — tag `h2` when `is_heading` is true, `p` otherwise — whose content
is the escaped text and whose attributes are `data-page`, `data-font`,
two-decimal `data-size`, two-decimal `data-spacing-before` (omitted
entirely when `spacing_before` is `None`) and lower-case
`data-is-heading`, the whole sequence wrapped in one enclosing `div`
container. -/
theorem serializer_spec (lines : List LineInfo) :
    ∃ sorted : List LineInfo,
      sorted.Perm lines ∧ List.Sorted pageY0Le sorted ∧
      build_html_from_lines lines =
        List.intercalate "\n".toList
          (["<div class=\"pdf-lines\">".toList] ++ sorted.map renderLine ++
            ["</div>".toList]) ∧
      ∀ l : LineInfo,
        renderLine l =
          "  <".toList ++
            (if l.is_heading then "h2".toList else "p".toList) ++ " ".toList ++
            List.intercalate " ".toList
              ((["data-page=\"".toList ++ (toString l.page).toList ++
                   "\"".toList,
                 "data-font=\"".toList ++ htmlEscape l.font ++ "\"".toList,
                 "data-size=\"".toList ++ format2 l.size ++ "\"".toList] ++
                (match l.spacing_before with
                 | some sp =>
                   ["data-spacing-before=\"".toList ++ format2 sp ++
                     "\"".toList]
                 | none => [])) ++
               ["data-is-heading=\"".toList ++
                 (if l.is_heading then "true".toList else "false".toList) ++
                 "\"".toList]) ++
            ">".toList ++ htmlEscape l.text ++ "</".toList ++
            (if l.is_heading then "h2".toList else "p".toList) ++
            ">".toList := by
  refine ⟨sortLines lines, List.perm_insertionSort _ _, ?_, rfl, fun l => rfl⟩
  unfold sortLines
  exact List.sorted_insertionSort _ _

lemma mergeLine_spec (p c : Nat) (rl : RawLine) :
    mergeLine p c rl =
      if mergedText rl = [] then none else some (specMergeRecord p (c, rl)) := by
  obtain ⟨spans, x0, y0, x1, y1⟩ := rl
  cases spans <;> rfl

lemma mergeLine_none (p c : Nat) (rl : RawLine) (hm : mergedText rl = []) :
    mergeLine p c rl = none := by
  rw [mergeLine_spec, if_pos hm]

lemma mergeLine_some (p c : Nat) (rl : RawLine) (hm : mergedText rl ≠ []) :
    mergeLine p c rl = some (specMergeRecord p (c, rl)) := by
  rw [mergeLine_spec, if_neg hm]

lemma processPageLines_cons (p c : Nat) (rl : RawLine) (rest : List RawLine) :
    processPageLines p c (rl :: rest) =
      match mergeLine p c rl with
      | none => processPageLines p c rest
      | some li => li :: processPageLines p (c + 1) rest := rfl

lemma processPageLines_eq (p : Nat) (rls : List RawLine) (c : Nat) :
    processPageLines p c rls =
      ((rls.filter (fun rl => mergedText rl ≠ [])).enumFrom c).map
        (specMergeRecord p) := by
  induction rls generalizing c with
  | nil => rfl
  | cons rl rest ih =>
    by_cases hm : mergedText rl = []
    · calc processPageLines p c (rl :: rest)
          = processPageLines p c rest := by
            rw [processPageLines_cons, mergeLine_none p c rl hm]
      _ = ((rest.filter (fun r => mergedText r ≠ [])).enumFrom c).map
            (specMergeRecord p) := ih c
      _ = (((rl :: rest).filter (fun r => mergedText r ≠ [])).enumFrom c).map
            (specMergeRecord p) := by
            simp [List.filter_cons, hm]
    · calc processPageLines p c (rl :: rest)
          = specMergeRecord p (c, rl) :: processPageLines p (c + 1) rest := by
            rw [processPageLines_cons, mergeLine_some p c rl hm]
      _ = specMergeRecord p (c, rl) ::
            ((rest.filter (fun r => mergedText r ≠ [])).enumFrom (c + 1)).map
              (specMergeRecord p) := by rw [ih (c + 1)]
      _ = (((rl :: rest).filter (fun r => mergedText r ≠ [])).enumFrom c).map
            (specMergeRecord p) := by
            simp [List.filter_cons, hm, List.enumFrom_cons]

/-- C5: the span-merging phase agrees with the spec-side merger: per page
(1-based ordinal), the raw lines whose concatenated-then-stripped text is
non-empty each produce exactly one record — first fragment's font and size,
bounding box verbatim, `line_index` a zero-based per-page counter over
producing lines — and lines with empty merged text produce nothing. -/
theorem span_merger_spec (pages : List (List (List RawLine))) :
    span_merge pages = specSpanMerge pages := by
  unfold span_merge specSpanMerge
  congr 1
  refine List.map_congr_left ?_
  intro pr _
  unfold specMergePage
  rw [processPageLines_eq]
  rfl

instance : IsTotal LineInfo y0Le :=
  ⟨fun a b => le_total a.y0 b.y0⟩

instance : IsTrans LineInfo y0Le :=
  ⟨fun _ _ _ hab hbc => le_trans hab hbc⟩

lemma spacingStep_fields (prev : Option LineInfo) (l : LineInfo) :
    (spacingStep prev l).page = l.page ∧ (spacingStep prev l).y0 = l.y0 ∧
    (spacingStep prev l).y1 = l.y1 := by
  cases prev <;> exact ⟨rfl, rfl, rfl⟩

lemma spacingWalk_length (prev : Option LineInfo) (xs : List LineInfo) :
    (spacingWalk prev xs).length = xs.length := by
  induction xs generalizing prev with
  | nil => rfl
  | cons x rest ih => simp [spacingWalk, ih]

lemma spacingWalk_page (prev : Option LineInfo) (xs : List LineInfo) (p : Nat)
    (h : ∀ l ∈ xs, l.page = p) :
    ∀ l ∈ spacingWalk prev xs, l.page = p := by
  induction xs generalizing prev with
  | nil => intro l hl; simp [spacingWalk] at hl
  | cons x rest ih =>
    intro l hl
    simp only [spacingWalk, List.mem_cons] at hl
    rcases hl with rfl | hl
    · rw [(spacingStep_fields prev x).1]
      exact h x (List.mem_cons_self _ _)
    · exact ih _ (fun l' hl' => h l' (List.mem_cons_of_mem _ hl')) l hl

lemma spacingWalk_getD_geom (prev : Option LineInfo) (xs : List LineInfo) :
    ∀ i : Nat,
      ((spacingWalk prev xs).getD i default).y0 = (xs.getD i default).y0 ∧
      ((spacingWalk prev xs).getD i default).y1 = (xs.getD i default).y1 := by
  induction xs generalizing prev with
  | nil => intro i; exact ⟨rfl, rfl⟩
  | cons x rest ih =>
    intro i
    cases i with
    | zero =>
      simp only [spacingWalk, List.getD_cons_zero]
      exact ⟨(spacingStep_fields prev x).2.1, (spacingStep_fields prev x).2.2⟩
    | succ j =>
      simp only [spacingWalk, List.getD_cons_succ]
      exact ih _ j

lemma spacingWalk_head_none (l : LineInfo) (rest : List LineInfo) :
    ((spacingWalk none (l :: rest)).getD 0 default).spacing_before = none := rfl

lemma spacingWalk_succ (prev : Option LineInfo) (xs : List LineInfo) (i : Nat)
    (h : i + 1 < xs.length) :
    ((spacingWalk prev xs).getD (i + 1) default).spacing_before =
      if 0 ≤ (xs.getD (i + 1) default).y0 - (xs.getD i default).y1
      then some ((xs.getD (i + 1) default).y0 - (xs.getD i default).y1)
      else none := by
  induction xs generalizing prev i with
  | nil => simp at h
  | cons x rest ih =>
    cases rest with
    | nil => simp at h
    | cons y rest' =>
      cases i with
      | zero =>
        simp only [spacingWalk, List.getD_cons_succ, List.getD_cons_zero]
        show (spacingStep (some (spacingStep prev x)) y).spacing_before = _
        rw [show (spacingStep (some (spacingStep prev x)) y).spacing_before =
              if 0 ≤ y.y0 - (spacingStep prev x).y1
              then some (y.y0 - (spacingStep prev x).y1) else none from rfl,
          (spacingStep_fields prev x).2.2]
      | succ j =>
        simp only [spacingWalk, List.getD_cons_succ]
        exact ih (some (spacingStep prev x)) j (by simpa using h)

lemma spacingWalk_nonneg (prev : Option LineInfo) (xs : List LineInfo) :
    ∀ l ∈ spacingWalk prev xs, ∀ g : ℚ, l.spacing_before = some g → 0 ≤ g := by
  induction xs generalizing prev with
  | nil => intro l hl; simp [spacingWalk] at hl
  | cons x rest ih =>
    intro l hl g hg
    simp only [spacingWalk, List.mem_cons] at hl
    rcases hl with rfl | hl
    · cases prev with
      | none => simp [spacingStep] at hg
      | some pr =>
        simp only [spacingStep] at hg
        by_cases h0 : 0 ≤ x.y0 - pr.y1
        · rw [if_pos h0] at hg
          exact (Option.some.inj hg) ▸ h0
        · rw [if_neg h0] at hg
          cases hg
    · exact ih _ l hl g hg

lemma foldl_pages_nodup (lines : List LineInfo) :
    ∀ acc : List Nat, acc.Nodup →
      (lines.foldl
        (fun acc l => if l.page ∈ acc then acc else acc ++ [l.page]) acc).Nodup := by
  induction lines with
  | nil => intro acc h; exact h
  | cons a as ih =>
    intro acc h
    simp only [List.foldl_cons]
    by_cases hm : a.page ∈ acc
    · rw [if_pos hm]; exact ih acc h
    · rw [if_neg hm]
      refine ih _ ?_
      simp [List.nodup_append, h, hm]

lemma pagesInOrder_nodup (lines : List LineInfo) :
    (pagesInOrder lines).Nodup :=
  foldl_pages_nodup lines [] (by simp)

lemma filter_flatMap_page (ps : List Nat) (F : Nat → List LineInfo) (p : Nat)
    (hnd : ps.Nodup) (hp : p ∈ ps) (hF : ∀ q ∈ ps, ∀ l ∈ F q, l.page = q) :
    (ps.flatMap F).filter (fun l => l.page = p) = F p := by
  induction ps with
  | nil => cases hp
  | cons q qs ih =>
    rw [List.flatMap_cons, List.filter_append]
    rcases List.mem_cons.mp hp with rfl | hp'
    · have h1 : (F p).filter (fun l => l.page = p) = F p :=
        List.filter_eq_self.mpr
          (by intro a ha; simpa using hF p (List.mem_cons_self _ _) a ha)
      have h2 : (qs.flatMap F).filter (fun l => l.page = p) = [] := by
        refine List.filter_eq_nil_iff.mpr ?_
        intro a ha
        obtain ⟨q', hq', ha'⟩ := List.mem_flatMap.mp ha
        have hpage : a.page = q' := hF q' (List.mem_cons_of_mem _ hq') a ha'
        have hpq : p ≠ q' := by
          rintro rfl
          exact (List.nodup_cons.mp hnd).1 hq'
        simp [hpage, Ne.symm hpq]
      rw [h1, h2, List.append_nil]
    · have hqp : q ≠ p := by
        rintro rfl
        exact (List.nodup_cons.mp hnd).1 hp'
      have h1 : (F q).filter (fun l => l.page = p) = [] := by
        refine List.filter_eq_nil_iff.mpr ?_
        intro a ha
        have hpage : a.page = q := hF q (List.mem_cons_self _ _) a ha
        simp [hpage, hqp]
      rw [h1, List.nil_append]
      exact ih (List.nodup_cons.mp hnd).2 hp'
        (fun q' hq' => hF q' (List.mem_cons_of_mem _ hq'))

lemma pageOut_eq (lines : List LineInfo) (p : Nat)
    (hp : p ∈ pagesInOrder lines) :
    pageOut lines p = spacingWalk none (pageSorted lines p) := by
  unfold pageOut compute_line_spacing
  refine filter_flatMap_page _ _ _ (pagesInOrder_nodup lines) hp ?_
  intro q hq l hl
  refine spacingWalk_page none _ q ?_ l hl
  intro l' hl'
  have hmem : l' ∈ lines.filter (fun l => l.page = q) :=
    ((List.perm_insertionSort _ _).mem_iff).mp hl'
  simpa using (List.mem_filter.mp hmem).2

/-- C3: for every page of the collection, the spacing output for that page
has one record per sorted input record; record geometry is preserved
position by position; the first record in ascending `y0` order has
`spacing_before = None` and its `y0` is minimal among the page's records;
each subsequent record's `spacing_before` is its `y0` minus the previous
sorted record's `y1` when that difference is nonnegative and `None`
otherwise; every assigned gap in the whole output is nonnegative; and every
gap is computed from two records of the same page only. -/
theorem spacing_per_page_spec (lines : List LineInfo) (p : Nat)
    (hp : p ∈ pagesInOrder lines) :
    (pageOut lines p).length = (pageSorted lines p).length ∧
    (∀ i : Nat,
      ((pageOut lines p).getD i default).y0 =
        ((pageSorted lines p).getD i default).y0 ∧
      ((pageOut lines p).getD i default).y1 =
        ((pageSorted lines p).getD i default).y1) ∧
    (0 < (pageOut lines p).length →
      ((pageOut lines p).getD 0 default).spacing_before = none) ∧
    (∀ l ∈ lines, l.page = p →
      ((pageSorted lines p).getD 0 default).y0 ≤ l.y0) ∧
    (∀ i : Nat, i + 1 < (pageOut lines p).length →
      ((pageOut lines p).getD (i + 1) default).spacing_before =
        if 0 ≤ ((pageSorted lines p).getD (i + 1) default).y0 -
            ((pageSorted lines p).getD i default).y1
        then some (((pageSorted lines p).getD (i + 1) default).y0 -
            ((pageSorted lines p).getD i default).y1)
        else none) ∧
    (∀ l ∈ compute_line_spacing lines, ∀ g : ℚ,
      l.spacing_before = some g → 0 ≤ g) := by
  have he := pageOut_eq lines p hp
  rw [he]
  refine ⟨spacingWalk_length _ _, spacingWalk_getD_geom _ _, ?_, ?_, ?_, ?_⟩
  · intro h0
    have hne : pageSorted lines p ≠ [] := by
      intro hnil
      rw [hnil] at h0
      simp [spacingWalk] at h0
    obtain ⟨x, xs, hs⟩ := List.exists_cons_of_ne_nil hne
    rw [hs]
    exact spacingWalk_head_none x xs
  · intro l hl hpage
    have hmem : l ∈ pageSorted lines p := by
      unfold pageSorted sortByY0
      rw [(List.perm_insertionSort _ _).mem_iff]
      exact List.mem_filter.mpr ⟨hl, by simp [hpage]⟩
    have hsorted : List.Sorted y0Le (pageSorted lines p) := by
      unfold pageSorted sortByY0
      exact List.sorted_insertionSort _ _
    obtain ⟨x, xs, hs⟩ := List.exists_cons_of_ne_nil (List.ne_nil_of_mem hmem)
    rw [hs] at hmem hsorted ⊢
    simp only [List.getD_cons_zero]
    rcases List.mem_cons.mp hmem with rfl | h'
    · exact le_refl _
    · exact (List.pairwise_cons.mp hsorted).1 l h'
  · intro i hstep
    rw [spacingWalk_length] at hstep
    exact spacingWalk_succ none _ i hstep
  · intro l hl g hg
    unfold compute_line_spacing at hl
    obtain ⟨q, hq, hl'⟩ := List.mem_flatMap.mp hl
    exact spacingWalk_nonneg none _ l hl' g hg

/-- C3 (witness): applied to `demoLines` and its page 1: the first record
in `y0` order has no spacing. -/
theorem spacing_per_page_spec_wit :
    1 ∈ pagesInOrder demoLines ∧
    (0 < (pageOut demoLines 1).length →
      ((pageOut demoLines 1).getD 0 default).spacing_before = none) ∧
    0 < (pageOut demoLines 1).length :=
  ⟨by decide, (spacing_per_page_spec demoLines 1 (by decide)).2.2.1,
    by decide⟩
